import Mathlib

/-!
Shallow embedding of the `ffphotojoin` library (`src/src/lib.rs`) and the
properties of its specification.

Modelling conventions:
* `u32` values are `Nat`s; where the Rust code can overflow a `u32`
  addition, the embedding reduces modulo `2 ^ 32` (two's-complement
  wrapping, the defined release-profile behaviour).
* `f32` arithmetic (`get_scale_factor` and the `as u32` casts) is modelled
  by exact rational arithmetic: the quotient `P / d` is the exact rational,
  the `as u32` cast truncates toward zero and saturates into `[0, u32::MAX]`
  (Rust's defined float-to-int cast), and division by zero follows IEEE 754
  (`x / 0 = +inf` for `x > 0`, `0 / 0 = NaN`, `inf * 0 = NaN`, a `NaN` casts
  to `0`, `+inf` saturates to `u32::MAX`).  Rounding error of `f32`
  operations themselves is not modelled; every concrete input used below
  is exactly representable, so the evaluations agree with the real code.
* The `image` crate is external to the repository.  Its three operations
  used by `join_photos` (`resize_exact`, `imageops::resize`,
  `imageops::overlay`) are parameters of the embedding (`ImageOps`),
  constrained exactly by their documented dimension contracts: a resize
  produces an image of precisely the requested dimensions, and an overlay
  leaves the dimensions of the base image unchanged.
* `println!` calls are side effects with no bearing on the result and are
  dropped.
-/

namespace FFPhotoJoin

/-- Largest `u32` value, `u32::MAX`. -/
def u32MAX : Nat := 2 ^ 32 - 1

/-- Modulus of `u32` arithmetic. -/
def u32Mod : Nat := 2 ^ 32

/-- `Direction` from `src/src/lib.rs`. -/
inductive Direction where
  | Horizontal
  | Vertical
deriving DecidableEq, Repr

/-- `Sizing` from `src/src/lib.rs`. -/
inductive Sizing where
  | ToSmallest
  | ToLargest
deriving DecidableEq, Repr

/-- `image::imageops::FilterType`, the resampling filters of the `image`
crate accepted by the repository. -/
inductive FilterType where
  | Nearest
  | Triangle
  | CatmullRom
  | Gaussian
  | Lanczos3
deriving DecidableEq, Repr

/-- `PhotoJoinOptions` from `src/src/lib.rs`. -/
structure PhotoJoinOptions where
  direction : Direction
  sizing : Sizing
  filter : FilterType

/-- `NoImagesProvided` from `src/src/lib.rs`: the only error value of the
library. -/
structure NoImagesProvided where
deriving DecidableEq, Repr

/-- A decoded raster image (`image::DynamicImage`): a width, a height and
pixel data, the latter modelled as a function from coordinates to a pixel
value. -/
structure Image where
  width : Nat
  height : Nat
  pix : Nat → Nat → Nat

/-- The operations `join_photos` uses from the external `image` crate,
together with their documented dimension contracts: resizing yields an
image of exactly the requested dimensions and overlaying writes into the
base image without changing its dimensions. -/
structure ImageOps where
  resize_exact : Image → Nat → Nat → FilterType → Image
  resize : Image → Nat → Nat → FilterType → Image
  overlay : Image → Image → Nat → Nat → Image
  resize_exact_width : ∀ i w h f, (resize_exact i w h f).width = w
  resize_exact_height : ∀ i w h f, (resize_exact i w h f).height = h
  resize_width : ∀ i w h f, (resize i w h f).width = w
  resize_height : ∀ i w h f, (resize i w h f).height = h
  overlay_width : ∀ b t x y, (overlay b t x y).width = b.width
  overlay_height : ∀ b t x y, (overlay b t x y).height = b.height

/-- The dimension selected by the `dir_size` binding inside the
`perpendicular_size` fold of `join_photos`, and also the multiplicand of
the `join_size` fold: width for `Horizontal`, height for `Vertical` (the
join-axis dimension). -/
def dir_size (direction : Direction) (img : Image) : Nat :=
  match direction with
  | .Horizontal => img.width
  | .Vertical => img.height

/-- The divisor inside `get_scale_factor`: height for `Horizontal`, width
for `Vertical` (the dimension perpendicular to the join axis). -/
def perp_dim (direction : Direction) (img : Image) : Nat :=
  match direction with
  | .Horizontal => img.height
  | .Vertical => img.width

/-- `get_scale_factor` from `src/src/lib.rs`: the `f32` quotient
`perpendicular_size / perp_dim img`, modelled as an exact rational (the
division-by-zero cases are handled where the quotient is consumed, in
`scaled_extent`). -/
def get_scale_factor (perpendicular_size : Nat) (direction : Direction)
    (img : Image) : ℚ :=
  (perpendicular_size : ℚ) / (perp_dim direction img : ℚ)

/-- Rust's saturating finite-`f32`-to-`u32` cast `as u32`: truncate toward
zero and clamp into `[0, u32::MAX]` (all values cast below are
nonnegative, so `Nat.floor` is truncation toward zero). -/
def castU32 (q : ℚ) : Nat := min u32MAX ⌊q⌋₊

/-- The `u32` value of `(get_scale_factor P dir img * dim) as u32` where
`dim` is the join-axis dimension: written directly on naturals.  For a
nonzero divisor `d` the exact value is `min u32MAX (P * j / d)`
(`scaled_extent_eq_cast` below proves this equal to the rational-cast
form); for `d = 0` the `f32` quotient is `+inf` (or `NaN` when `P = 0`)
and multiplying by `j` then casting gives `u32::MAX` when both `P` and `j`
are nonzero and `0` otherwise. -/
def scaled_extent (P d j : Nat) : Nat :=
  if d = 0 then (if P = 0 ∨ j = 0 then 0 else u32MAX)
  else min u32MAX (P * j / d)

/-- The `perpendicular_size` fold of `join_photos`: seeded with `u32::MAX`
for `ToSmallest` and `0` for `ToLargest`, combining each image's
`dir_size` with `min`, resp. `max`. -/
def perpendicular_size (photos : List Image) (options : PhotoJoinOptions) : Nat :=
  photos.foldl
    (fun size img =>
      match options.sizing with
      | .ToSmallest => min size (dir_size options.direction img)
      | .ToLargest => max size (dir_size options.direction img))
    (match options.sizing with
     | .ToSmallest => u32MAX
     | .ToLargest => 0)

/-- The summand of the `join_size` fold of `join_photos`:
`(get_scale_factor P dir img * dir_size dir img) as u32`. -/
def img_extent (P : Nat) (direction : Direction) (img : Image) : Nat :=
  scaled_extent P (perp_dim direction img) (dir_size direction img)

/-- The `join_size` fold of `join_photos`: accumulate each image's scaled
join-axis extent with wrapping `u32` addition. -/
def join_size (P : Nat) (photos : List Image) (options : PhotoJoinOptions) : Nat :=
  photos.foldl (fun size img => (size + img_extent P options.direction img) % u32Mod) 0

/-- `get_size` from `src/src/lib.rs`: the scaled dimensions of one image,
`(scale * width as u32, P)` for `Horizontal` and `(P, scale * height as
u32)` for `Vertical`. -/
def get_size (perpendicular_size : Nat) (direction : Direction) (img : Image) :
    Nat × Nat :=
  match direction with
  | .Horizontal => (scaled_extent perpendicular_size img.height img.width,
      perpendicular_size)
  | .Vertical => (perpendicular_size,
      scaled_extent perpendicular_size img.width img.height)

/-- One step of the overlay fold of `join_photos`: from the running
join-axis offset `pos` and the canvas, overlay the resized image at
`(pos, 0)` (`Horizontal`) or `(0, pos)` (`Vertical`) and advance `pos` by
the scaled join-axis extent (wrapping `u32` addition). -/
def overlay_step (ops : ImageOps) (options : PhotoJoinOptions) (P : Nat)
    (acc : Nat × Image) (img : Image) : Nat × Image :=
  let wh := get_size P options.direction img
  let xy : Nat × Nat :=
    match options.direction with
    | .Horizontal => (acc.1, 0)
    | .Vertical => (0, acc.1)
  ((acc.1 + (match options.direction with
             | .Vertical => wh.2
             | .Horizontal => wh.1)) % u32Mod,
   ops.overlay acc.2 (ops.resize img wh.1 wh.2 options.filter) xy.1 xy.2)

/-- `join_photos` from `src/src/lib.rs`.  Empty input returns the
`NoImagesProvided` error; a singleton is returned unchanged; otherwise the
perpendicular size and total join size are computed, the first image is
resized exactly to the canvas dimensions with the `Nearest` filter, and
every image is resized with the user's filter and overlaid at the running
join-axis offset. -/
def join_photos (ops : ImageOps) (photos : List Image)
    (options : PhotoJoinOptions) : Except NoImagesProvided Image :=
  match photos with
  | [] => .error {}
  | [img] => .ok img
  | first :: second :: rest =>
    let photos := first :: second :: rest
    let P := perpendicular_size photos options
    let jsize := join_size P photos options
    let output_img := ops.resize_exact first
      (match options.direction with
       | .Horizontal => jsize
       | .Vertical => P)
      (match options.direction with
       | .Horizontal => P
       | .Vertical => jsize)
      FilterType.Nearest
    .ok (photos.foldl (overlay_step ops options P) (0, output_img)).2

/-- The placement record of each image in input order, read off from the
overlay fold: for each image, the paste position `(x, y)` and the resized
dimensions `(w, h)`, the running offset advancing by the scaled join-axis
extent with wrapping `u32` addition. -/
def placements (P : Nat) (options : PhotoJoinOptions) :
    List Image → Nat → List (Nat × Nat × Nat × Nat)
  | [], _ => []
  | img :: rest, pos =>
    let wh := get_size P options.direction img
    (match options.direction with
     | .Horizontal => (pos, 0, wh.1, wh.2)
     | .Vertical => (0, pos, wh.1, wh.2)) ::
      placements P options rest
        ((pos + (match options.direction with
                 | .Vertical => wh.2
                 | .Horizontal => wh.1)) % u32Mod)

/-- Sequentially overlay resized images onto a canvas at the recorded
placements: the image part of the overlay fold of `join_photos`. -/
def overlay_all (ops : ImageOps) (filter : FilterType) :
    Image → List ((Nat × Nat × Nat × Nat) × Image) → Image
  | canvas, [] => canvas
  | canvas, (pl, img) :: rest =>
      overlay_all ops filter
        (ops.overlay canvas (ops.resize img pl.2.2.1 pl.2.2.2 filter) pl.1 pl.2.1)
        rest

/-- The final running offset of the overlay fold of `join_photos`: the
cumulative join-axis extent actually advanced while pasting. -/
def paste_final_pos (P : Nat) (options : PhotoJoinOptions)
    (photos : List Image) : Nat :=
  photos.foldl
    (fun pos img =>
      let wh := get_size P options.direction img
      (pos + (match options.direction with
              | .Vertical => wh.2
              | .Horizontal => wh.1)) % u32Mod)
    0

/-- Width of the image a `join_photos` call returned (`0` on error). -/
def out_width (r : Except NoImagesProvided Image) : Nat :=
  match r with
  | .ok img => img.width
  | .error _ => 0

/-- Height of the image a `join_photos` call returned (`0` on error). -/
def out_height (r : Except NoImagesProvided Image) : Nat :=
  match r with
  | .ok img => img.height
  | .error _ => 0

/-- Join-axis dimension of the image a `join_photos` call returned (`0` on
error). -/
def out_dir_size (direction : Direction) (r : Except NoImagesProvided Image) : Nat :=
  match r with
  | .ok img => dir_size direction img
  | .error _ => 0

/-- A concrete image of the given dimensions with constant pixel data,
used for evaluating the embedding on concrete inputs. -/
def sampleImage (w h : Nat) : Image := ⟨w, h, fun _ _ => 0⟩

/-- A concrete, executable instance of the `image`-crate operations used
for evaluating the embedding: resizing samples nearest-neighbour style and
sets exactly the requested dimensions, overlaying writes the top image's
pixels into the base at the given position.  Only the dimension contracts
matter to the theorems below. -/
def trivial_ops : ImageOps where
  resize_exact i w h _ := ⟨w, h, fun x y => i.pix (x * i.width / w) (y * i.height / h)⟩
  resize i w h _ := ⟨w, h, fun x y => i.pix (x * i.width / w) (y * i.height / h)⟩
  overlay b t x y :=
    ⟨b.width, b.height, fun a c =>
      if x ≤ a ∧ a < x + t.width ∧ y ≤ c ∧ c < y + t.height
      then t.pix (a - x) (c - y) else b.pix a c⟩
  resize_exact_width _ _ _ _ := rfl
  resize_exact_height _ _ _ _ := rfl
  resize_width _ _ _ _ := rfl
  resize_height _ _ _ _ := rfl
  overlay_width _ _ _ _ := rfl
  overlay_height _ _ _ _ := rfl

/-! ### Fidelity and fold lemmas -/

theorem u32Mod_pos : 0 < u32Mod := by decide

/-- For a nonzero divisor, `scaled_extent` is exactly the saturating cast
of the rational `P / d * j`, the idealised value of the source expression
`(get_scale_factor(..) * dim as f32) as u32`. -/
theorem scaled_extent_eq_cast (P d j : Nat) (hd : d ≠ 0) :
    scaled_extent P d j = castU32 ((P : ℚ) / (d : ℚ) * (j : ℚ)) := by
  rw [scaled_extent, if_neg hd, castU32, div_mul_eq_mul_div, ← Nat.cast_mul,
    Nat.floor_div_nat, Nat.floor_natCast]

/-- `img_extent` is the saturating cast of
`get_scale_factor P dir img * dir_size dir img` whenever the image's
perpendicular dimension is nonzero. -/
theorem img_extent_eq_cast (P : Nat) (direction : Direction) (img : Image)
    (hd : perp_dim direction img ≠ 0) :
    img_extent P direction img =
      castU32 (get_scale_factor P direction img * (dir_size direction img : ℚ)) :=
  scaled_extent_eq_cast P _ _ hd

/-- The join-axis component of `get_size` is `img_extent`. -/
theorem get_size_join_dim (P : Nat) (direction : Direction) (img : Image) :
    (match direction with
     | .Vertical => (get_size P direction img).2
     | .Horizontal => (get_size P direction img).1) =
      img_extent P direction img := by
  cases direction <;> rfl

/-- A fold of wrapping additions equals the plain sum reduced modulo
`u32Mod`, for any in-range starting value. -/
theorem foldl_wrap_add (e : Image → Nat) :
    ∀ (l : List Image) (p : Nat), p < u32Mod →
      l.foldl (fun s img => (s + e img) % u32Mod) p = (p + (l.map e).sum) % u32Mod
  | [], p, hp => by simp [Nat.mod_eq_of_lt hp]
  | img :: rest, p, hp => by
    rw [List.foldl_cons, foldl_wrap_add e rest _ (Nat.mod_lt _ u32Mod_pos),
      Nat.mod_add_mod, List.map_cons, List.sum_cons, Nat.add_assoc]

/-- The `join_size` fold is the sum of the per-image scaled extents
reduced modulo `2 ^ 32`. -/
theorem join_size_eq_sum_mod (P : Nat) (photos : List Image)
    (options : PhotoJoinOptions) :
    join_size P photos options =
      (photos.map (img_extent P options.direction)).sum % u32Mod := by
  rw [join_size, foldl_wrap_add _ _ 0 u32Mod_pos, Nat.zero_add]

/-- The running offset of the overlay fold advances by the same per-image
extents the `join_size` fold sums: the two folds agree. -/
theorem paste_final_pos_eq_join_size (P : Nat) (options : PhotoJoinOptions)
    (photos : List Image) :
    paste_final_pos P options photos = join_size P photos options := by
  rw [paste_final_pos, join_size]
  exact List.foldl_ext _ _ 0 fun pos img => fun _ => by
    rw [← get_size_join_dim P options.direction img]

/-- The image component of the overlay fold of `join_photos` is
`overlay_all` applied along `placements`. -/
theorem foldl_overlay_step_snd (ops : ImageOps) (options : PhotoJoinOptions)
    (P : Nat) :
    ∀ (l : List Image) (pos : Nat) (canvas : Image),
      (l.foldl (overlay_step ops options P) (pos, canvas)).2 =
        overlay_all ops options.filter canvas ((placements P options l pos).zip l)
  | [], _, _ => rfl
  | img :: rest, pos, canvas => by
    rw [List.foldl_cons]
    rw [foldl_overlay_step_snd ops options P rest]
    cases h : options.direction <;>
      simp [overlay_step, placements, overlay_all, h, List.zip]

/-- `overlay_all` never changes the width of the canvas. -/
theorem overlay_all_width (ops : ImageOps) (filter : FilterType) :
    ∀ (l : List ((Nat × Nat × Nat × Nat) × Image)) (canvas : Image),
      (overlay_all ops filter canvas l).width = canvas.width
  | [], _ => rfl
  | (pl, img) :: rest, canvas => by
    rw [overlay_all, overlay_all_width ops filter rest, ops.overlay_width]

/-- `overlay_all` never changes the height of the canvas. -/
theorem overlay_all_height (ops : ImageOps) (filter : FilterType) :
    ∀ (l : List ((Nat × Nat × Nat × Nat) × Image)) (canvas : Image),
      (overlay_all ops filter canvas l).height = canvas.height
  | [], _ => rfl
  | (pl, img) :: rest, canvas => by
    rw [overlay_all, overlay_all_height ops filter rest, ops.overlay_height]

/-- On two or more images `join_photos` returns the canvas obtained by
resizing the first image exactly to the canvas dimensions with the
`Nearest` filter and then overlaying every image along `placements`. -/
theorem join_photos_cons_cons (ops : ImageOps) (o : PhotoJoinOptions)
    (a b : Image) (rest : List Image) :
    join_photos ops (a :: b :: rest) o =
      .ok (overlay_all ops o.filter
        (ops.resize_exact a
          (match o.direction with
           | .Horizontal => join_size (perpendicular_size (a :: b :: rest) o) (a :: b :: rest) o
           | .Vertical => perpendicular_size (a :: b :: rest) o)
          (match o.direction with
           | .Horizontal => perpendicular_size (a :: b :: rest) o
           | .Vertical => join_size (perpendicular_size (a :: b :: rest) o) (a :: b :: rest) o)
          FilterType.Nearest)
        ((placements (perpendicular_size (a :: b :: rest) o) o (a :: b :: rest) 0).zip
          (a :: b :: rest))) := by
  simp only [join_photos]
  rw [foldl_overlay_step_snd]

/-- The width of the joined image of two or more photos: the total join
size for `Horizontal`, the perpendicular size for `Vertical`. -/
theorem out_width_join (ops : ImageOps) (o : PhotoJoinOptions)
    (a b : Image) (rest : List Image) :
    out_width (join_photos ops (a :: b :: rest) o) =
      (match o.direction with
       | .Horizontal => join_size (perpendicular_size (a :: b :: rest) o) (a :: b :: rest) o
       | .Vertical => perpendicular_size (a :: b :: rest) o) := by
  rw [join_photos_cons_cons, out_width, overlay_all_width, ops.resize_exact_width]

/-- The height of the joined image of two or more photos: the
perpendicular size for `Horizontal`, the total join size for
`Vertical`. -/
theorem out_height_join (ops : ImageOps) (o : PhotoJoinOptions)
    (a b : Image) (rest : List Image) :
    out_height (join_photos ops (a :: b :: rest) o) =
      (match o.direction with
       | .Horizontal => perpendicular_size (a :: b :: rest) o
       | .Vertical => join_size (perpendicular_size (a :: b :: rest) o) (a :: b :: rest) o) := by
  rw [join_photos_cons_cons, out_height, overlay_all_height, ops.resize_exact_height]

/-! ### Folded minima and maxima -/

theorem foldl_min_le_seed (l : List Nat) : ∀ (a : Nat), l.foldl min a ≤ a := by
  induction l with
  | nil => exact fun a => Nat.le_refl a
  | cons x l ih =>
    exact fun a => Nat.le_trans (ih (min a x)) (Nat.min_le_left a x)

theorem foldl_min_le_of_mem (l : List Nat) (x : Nat) (hx : x ∈ l) :
    ∀ (a : Nat), l.foldl min a ≤ x := by
  induction l with
  | nil => cases hx
  | cons y l ih =>
    intro a
    rcases List.mem_cons.mp hx with h | h
    · subst h
      exact Nat.le_trans (foldl_min_le_seed l (min a x)) (Nat.min_le_right a x)
    · exact ih h (min a y)

theorem foldl_min_eq_seed_or_mem (l : List Nat) :
    ∀ (a : Nat), l.foldl min a = a ∨ l.foldl min a ∈ l := by
  induction l with
  | nil => exact fun a => Or.inl rfl
  | cons x l ih =>
    intro a
    rcases ih (min a x) with h | h
    · rcases Nat.le_total a x with hax | hxa
      · exact Or.inl (by rw [List.foldl_cons, h, Nat.min_eq_left hax])
      · exact Or.inr (by rw [List.foldl_cons, h, Nat.min_eq_right hxa]; exact List.mem_cons_self x l)
    · exact Or.inr (List.mem_cons_of_mem x h)

theorem seed_le_foldl_max (l : List Nat) : ∀ (a : Nat), a ≤ l.foldl max a := by
  induction l with
  | nil => exact fun a => Nat.le_refl a
  | cons x l ih =>
    exact fun a => Nat.le_trans (Nat.le_max_left a x) (ih (max a x))

theorem mem_le_foldl_max (l : List Nat) (x : Nat) (hx : x ∈ l) :
    ∀ (a : Nat), x ≤ l.foldl max a := by
  induction l with
  | nil => cases hx
  | cons y l ih =>
    intro a
    rcases List.mem_cons.mp hx with h | h
    · subst h
      exact Nat.le_trans (Nat.le_max_right a x) (seed_le_foldl_max l (max a x))
    · exact ih h (max a y)

theorem foldl_max_eq_seed_or_mem (l : List Nat) :
    ∀ (a : Nat), l.foldl max a = a ∨ l.foldl max a ∈ l := by
  induction l with
  | nil => exact fun a => Or.inl rfl
  | cons x l ih =>
    intro a
    rcases ih (max a x) with h | h
    · rcases Nat.le_total a x with hax | hxa
      · exact Or.inr (by rw [List.foldl_cons, h, Nat.max_eq_right hax]; exact List.mem_cons_self x l)
      · exact Or.inl (by rw [List.foldl_cons, h, Nat.max_eq_left hxa])
    · exact Or.inr (List.mem_cons_of_mem x h)

/-- `perpendicular_size` as a fold over the list of folded dimensions. -/
theorem perpendicular_size_eq_foldl_map (photos : List Image)
    (options : PhotoJoinOptions) :
    perpendicular_size photos options =
      match options.sizing with
      | .ToSmallest => (photos.map (dir_size options.direction)).foldl min u32MAX
      | .ToLargest => (photos.map (dir_size options.direction)).foldl max 0 := by
  cases h : options.sizing <;>
    simp [perpendicular_size, h, List.foldl_map]

/-- The k-th placement: the join-axis offset is the starting offset plus
the sum of the scaled extents of the previous images, reduced modulo
`2 ^ 32`, paired with the scaled dimensions of the k-th image; the offset
is the x coordinate (y = 0) for `Horizontal` and the y coordinate (x = 0)
for `Vertical`. -/
theorem placements_getD (P : Nat) (o : PhotoJoinOptions) :
    ∀ (photos : List Image) (pos k : Nat), pos < u32Mod → k < photos.length →
      (placements P o photos pos).getD k (0, 0, 0, 0) =
        (match o.direction with
         | .Horizontal =>
            ((pos + ((photos.take k).map (img_extent P o.direction)).sum) % u32Mod, 0,
              get_size P o.direction (photos.getD k (sampleImage 0 0)))
         | .Vertical =>
            (0, (pos + ((photos.take k).map (img_extent P o.direction)).sum) % u32Mod,
              get_size P o.direction (photos.getD k (sampleImage 0 0))))
  | [], _, k, _, hk => absurd hk (by simp)
  | img :: rest, pos, 0, hpos, _ => by
      cases h : o.direction <;>
        simp [placements, h, Nat.mod_eq_of_lt hpos]
  | img :: rest, pos, k + 1, hpos, hk => by
      have hk' : k < rest.length := Nat.lt_of_succ_lt_succ hk
      rw [placements]
      rw [List.getD_cons_succ]
      rw [placements_getD P o rest _ k (Nat.mod_lt _ u32Mod_pos) hk']
      cases h : o.direction <;>
        simp [h, Nat.mod_add_mod, Nat.add_assoc] <;> rfl

/-- Any nonempty photo list joins successfully. -/
theorem join_photos_ok_of_ne_nil (ops : ImageOps) (photos : List Image)
    (o : PhotoJoinOptions) (h : photos ≠ []) :
    ∃ out, join_photos ops photos o = .ok out := by
  match photos with
  | [] => exact absurd rfl h
  | [img] => exact ⟨img, rfl⟩
  | a :: b :: rest => exact ⟨_, join_photos_cons_cons ops o a b rest⟩

theorem out_dir_size_horizontal (r : Except NoImagesProvided Image) :
    out_dir_size .Horizontal r = out_width r := by
  cases r <;> rfl

theorem out_dir_size_vertical (r : Except NoImagesProvided Image) :
    out_dir_size .Vertical r = out_height r := by
  cases r <;> rfl

/-! ### Claims -/

/-- C1: the spec says the perpendicular size P is the fold of the
dimension perpendicular to the join direction (height for Horizontal),
but the code's fold takes `img.width()` for Horizontal — the join-axis
dimension.  On two images of sizes 10×20 and 30×5 joined Horizontal with
ToSmallest, the code's P (and hence the output height) is
min(10, 30) = 10, while the minimum of the heights is min(20, 5) = 5. -/
theorem perp_fold_uses_join_axis_dim :
    perpendicular_size [sampleImage 10 20, sampleImage 30 5]
        ⟨.Horizontal, .ToSmallest, .Gaussian⟩ = 10 ∧
    out_height (join_photos trivial_ops [sampleImage 10 20, sampleImage 30 5]
        ⟨.Horizontal, .ToSmallest, .Gaussian⟩) = 10 ∧
    min (sampleImage 10 20).height (sampleImage 30 5).height = 5 ∧
    (10 : Nat) ≠ 5 :=
  ⟨by decide, by decide, by decide, by decide⟩

/-- C2: joining the empty list fails with `NoImagesProvided` for every
options value and every interpretation of the image operations, and every
nonempty list joins successfully — the empty input is the only failure. -/
theorem join_photos_err_iff_empty (ops : ImageOps) (o : PhotoJoinOptions)
    (photos : List Image) :
    (photos = [] → join_photos ops photos o = .error {}) ∧
    (photos ≠ [] → ∃ out, join_photos ops photos o = .ok out) := by
  refine ⟨?_, join_photos_ok_of_ne_nil ops photos o⟩
  intro h
  subst h
  rfl

/-- C2 witness: concrete empty and nonempty calls. -/
theorem join_photos_err_iff_empty_witness :
    join_photos trivial_ops [] ⟨.Vertical, .ToSmallest, .Nearest⟩ = .error {} ∧
    ∃ out, join_photos trivial_ops [sampleImage 2 3]
        ⟨.Vertical, .ToSmallest, .Nearest⟩ = .ok out :=
  ⟨(join_photos_err_iff_empty trivial_ops ⟨.Vertical, .ToSmallest, .Nearest⟩ []).1 rfl,
   (join_photos_err_iff_empty trivial_ops ⟨.Vertical, .ToSmallest, .Nearest⟩
      [sampleImage 2 3]).2 (by simp)⟩

/-- C3: a singleton input is returned unchanged — the very same image, for
every options value and every interpretation of the image operations, so
no resize, no perpendicular-size computation and no filter touches it. -/
theorem join_photos_singleton_id (ops : ImageOps) (img : Image)
    (o : PhotoJoinOptions) :
    join_photos ops [img] o = .ok img :=
  rfl

/-- C4 counterexample: with images 1×1 and 0×1 joined Vertical/ToLargest,
the second image's scaled extent is `u32::MAX` (division by zero width
gives an infinite scale factor), the plain sum of extents is `2 ^ 32`, and
the wrapping `u32` accumulation makes the canvas join-axis size 0 — not
the sum. -/
theorem join_size_ne_sum_extents_cex :
    out_dir_size Direction.Vertical
        (join_photos trivial_ops [sampleImage 1 1, sampleImage 0 1]
          ⟨.Vertical, .ToLargest, .Gaussian⟩) ≠
      ([sampleImage 1 1, sampleImage 0 1].map
          (img_extent
            (perpendicular_size [sampleImage 1 1, sampleImage 0 1]
              ⟨.Vertical, .ToLargest, .Gaussian⟩)
            Direction.Vertical)).sum := by
  decide

/-- C4 (amended): for two or more images the canvas join-axis size equals
the sum of the per-image truncated scaled extents reduced modulo `2 ^ 32`
(the wrapping `u32` accumulation; the plain sum whenever it stays below
`2 ^ 32`), and it equals exactly the cumulative extent advanced by the
sequential paste fold. -/
theorem join_size_eq_sum_mod_and_paste_pos (ops : ImageOps)
    (o : PhotoJoinOptions) (a b : Image) (rest : List Image) :
    out_dir_size o.direction (join_photos ops (a :: b :: rest) o) =
      ((a :: b :: rest).map
          (img_extent (perpendicular_size (a :: b :: rest) o) o.direction)).sum %
        u32Mod ∧
    out_dir_size o.direction (join_photos ops (a :: b :: rest) o) =
      paste_final_pos (perpendicular_size (a :: b :: rest) o) o (a :: b :: rest) := by
  have hout : out_dir_size o.direction (join_photos ops (a :: b :: rest) o) =
      join_size (perpendicular_size (a :: b :: rest) o) (a :: b :: rest) o := by
    cases h : o.direction
    · rw [out_dir_size_horizontal, out_width_join, h]
    · rw [out_dir_size_vertical, out_height_join, h]
  rw [hout]
  exact ⟨join_size_eq_sum_mod _ _ _, (paste_final_pos_eq_join_size _ _ _).symm⟩

/-- C5 counterexample: with images 1×1, 0×1, 1×1 joined Vertical/ToLargest
the second image's scaled extent is `u32::MAX`, so the third image's paste
offset wraps to 0 instead of the plain sum `1 + u32::MAX = 2 ^ 32` of the
extents of the images before it. -/
theorem placement_offset_ne_plain_sum_cex :
    ((placements
        (perpendicular_size [sampleImage 1 1, sampleImage 0 1, sampleImage 1 1]
          ⟨.Vertical, .ToLargest, .Gaussian⟩)
        ⟨.Vertical, .ToLargest, .Gaussian⟩
        [sampleImage 1 1, sampleImage 0 1, sampleImage 1 1] 0).getD 2 (0, 0, 0, 0)).2.1 ≠
      img_extent
          (perpendicular_size [sampleImage 1 1, sampleImage 0 1, sampleImage 1 1]
            ⟨.Vertical, .ToLargest, .Gaussian⟩)
          Direction.Vertical (sampleImage 1 1) +
        img_extent
          (perpendicular_size [sampleImage 1 1, sampleImage 0 1, sampleImage 1 1]
            ⟨.Vertical, .ToLargest, .Gaussian⟩)
          Direction.Vertical (sampleImage 0 1) := by
  decide

/-- C5 (amended): the k-th image is pasted at the join-axis offset given
by the sum of the scaled extents of images 0..k-1 reduced modulo `2 ^ 32`
(the plain sum whenever it stays below `2 ^ 32`), the offset being the x
coordinate with y = 0 for Horizontal and the y coordinate with x = 0 for
Vertical, alongside the image's scaled dimensions. -/
theorem placement_offset_eq_sum_mod (o : PhotoJoinOptions) (P : Nat)
    (photos : List Image) (k : Nat) (hk : k < photos.length) :
    (placements P o photos 0).getD k (0, 0, 0, 0) =
      (match o.direction with
       | .Horizontal =>
          (((photos.take k).map (img_extent P o.direction)).sum % u32Mod, 0,
            get_size P o.direction (photos.getD k (sampleImage 0 0)))
       | .Vertical =>
          (0, ((photos.take k).map (img_extent P o.direction)).sum % u32Mod,
            get_size P o.direction (photos.getD k (sampleImage 0 0)))) := by
  have h := placements_getD P o photos 0 k u32Mod_pos hk
  simpa using h

/-- C5 witness: with P fixed to 100 the second of two concrete images is
placed at the y offset given by the first image's scaled extent. -/
theorem placement_offset_eq_sum_mod_witness :
    1 < ([sampleImage 80 100, sampleImage 40 100] : List Image).length ∧
    (placements 100 ⟨.Vertical, .ToSmallest, .Gaussian⟩
        [sampleImage 80 100, sampleImage 40 100] 0).getD 1 (0, 0, 0, 0) =
      (0,
        (([sampleImage 80 100, sampleImage 40 100].take 1).map
            (img_extent 100 Direction.Vertical)).sum % u32Mod,
        get_size 100 Direction.Vertical
          ([sampleImage 80 100, sampleImage 40 100].getD 1 (sampleImage 0 0))) :=
  ⟨by decide,
   placement_offset_eq_sum_mod ⟨.Vertical, .ToSmallest, .Gaussian⟩ 100
     [sampleImage 80 100, sampleImage 40 100] 1 (by decide)⟩

/-- C6: evaluating the code on Scenario B (images 80×100 and 40×100,
Vertical, ToSmallest): because the perpendicular-size fold takes heights
for Vertical, the code computes P = min(100, 100) = 100 — not the
specified min(80, 40) = 40 — and produces a 100×375 canvas with pastes at
(0,0) size 100×125 and (0,125) size 100×250, instead of the specified
40×150 canvas with pastes at (0,0) size 40×50 and (0,50) size 40×100. -/
theorem scenario_b_code_result :
    perpendicular_size [sampleImage 80 100, sampleImage 40 100]
        ⟨.Vertical, .ToSmallest, .Gaussian⟩ = 100 ∧
    out_width (join_photos trivial_ops [sampleImage 80 100, sampleImage 40 100]
        ⟨.Vertical, .ToSmallest, .Gaussian⟩) = 100 ∧
    out_height (join_photos trivial_ops [sampleImage 80 100, sampleImage 40 100]
        ⟨.Vertical, .ToSmallest, .Gaussian⟩) = 375 ∧
    placements 100 ⟨.Vertical, .ToSmallest, .Gaussian⟩
        [sampleImage 80 100, sampleImage 40 100] 0 =
      [(0, 0, 100, 125), (0, 125, 100, 250)] ∧
    (100 : Nat) ≠ 40 :=
  ⟨by decide, by decide, by decide, by decide, by decide⟩

/-- C7: on two or more images the canvas is the first image resized
exactly to the full canvas dimensions — (totalJoin, P) for Horizontal and
(P, totalJoin) for Vertical — with the `Nearest` filter regardless of the
user-selected filter, and every image is then overlaid on top of it. -/
theorem join_photos_base_layer (ops : ImageOps) (o : PhotoJoinOptions)
    (a b : Image) (rest : List Image) :
    join_photos ops (a :: b :: rest) o =
      .ok (overlay_all ops o.filter
        (ops.resize_exact a
          (match o.direction with
           | .Horizontal => join_size (perpendicular_size (a :: b :: rest) o) (a :: b :: rest) o
           | .Vertical => perpendicular_size (a :: b :: rest) o)
          (match o.direction with
           | .Horizontal => perpendicular_size (a :: b :: rest) o
           | .Vertical => join_size (perpendicular_size (a :: b :: rest) o) (a :: b :: rest) o)
          FilterType.Nearest)
        ((placements (perpendicular_size (a :: b :: rest) o) o (a :: b :: rest) 0).zip
          (a :: b :: rest))) :=
  join_photos_cons_cons ops o a b rest

/-- C8: every nonempty input — zero-width and zero-height images
included — joins to a result: the scale-factor division, the truncating
casts and the join-size accumulation are total under their defined Rust
semantics (IEEE division by zero, saturating casts, wrapping `u32`
addition), so the call never fails on nonempty input. -/
theorem join_photos_total_on_nonempty (ops : ImageOps) (photos : List Image)
    (o : PhotoJoinOptions) (h : photos ≠ []) :
    ∃ out, join_photos ops photos o = .ok out :=
  join_photos_ok_of_ne_nil ops photos o h

/-- C8 witness: a list containing zero-width and zero-height images. -/
theorem join_photos_total_on_nonempty_witness :
    ([sampleImage 0 0, sampleImage 3 0, sampleImage 0 5] : List Image) ≠ [] ∧
    ∃ out, join_photos trivial_ops [sampleImage 0 0, sampleImage 3 0, sampleImage 0 5]
        ⟨.Horizontal, .ToLargest, .Gaussian⟩ = .ok out :=
  ⟨by simp,
   join_photos_total_on_nonempty trivial_ops
     [sampleImage 0 0, sampleImage 3 0, sampleImage 0 5]
     ⟨.Horizontal, .ToLargest, .Gaussian⟩ (by simp)⟩

/-- C9: `join_photos` is deterministic — it is a pure function of its
arguments, so equal photo lists and equal options give equal results. -/
theorem join_photos_deterministic (ops : ImageOps) (p1 p2 : List Image)
    (o1 o2 : PhotoJoinOptions) (hp : p1 = p2) (ho : o1 = o2) :
    join_photos ops p1 o1 = join_photos ops p2 o2 := by
  rw [hp, ho]

/-- C9 witness: two identical concrete calls agree. -/
theorem join_photos_deterministic_witness :
    ([sampleImage 4 6, sampleImage 2 2] : List Image) =
        [sampleImage 4 6, sampleImage 2 2] ∧
    join_photos trivial_ops [sampleImage 4 6, sampleImage 2 2]
        ⟨.Horizontal, .ToSmallest, .Lanczos3⟩ =
      join_photos trivial_ops [sampleImage 4 6, sampleImage 2 2]
        ⟨.Horizontal, .ToSmallest, .Lanczos3⟩ :=
  ⟨rfl, join_photos_deterministic trivial_ops _ _ _ _ rfl rfl⟩

/-- C10: the folded perpendicular size is attained by some input image's
folded dimension (the sentinel seeds `u32::MAX` and 0 never leak for
in-range dimensions), it is a lower bound of the folded dimensions under
ToLargest and an upper bound under ToSmallest. -/
theorem perpendicular_size_attained (o : PhotoJoinOptions)
    (photos : List Image) (hne : photos ≠ [])
    (hwf : ∀ img ∈ photos, dir_size o.direction img ≤ u32MAX) :
    (∃ img ∈ photos, perpendicular_size photos o = dir_size o.direction img) ∧
    (o.sizing = .ToSmallest →
      ∀ img ∈ photos, perpendicular_size photos o ≤ dir_size o.direction img) ∧
    (o.sizing = .ToLargest →
      ∀ img ∈ photos, dir_size o.direction img ≤ perpendicular_size photos o) := by
  rcases photos with _ | ⟨x, xs⟩
  · exact absurd rfl hne
  cases hs : o.sizing
  case ToSmallest =>
    have hperp : perpendicular_size (x :: xs) o =
        ((x :: xs).map (dir_size o.direction)).foldl min u32MAX := by
      rw [perpendicular_size_eq_foldl_map, hs]
    refine ⟨?_, ?_, ?_⟩
    · rcases foldl_min_eq_seed_or_mem ((x :: xs).map (dir_size o.direction)) u32MAX with
        he | hm
      · refine ⟨x, List.mem_cons_self x xs, ?_⟩
        have h1 : ((x :: xs).map (dir_size o.direction)).foldl min u32MAX ≤
            dir_size o.direction x :=
          foldl_min_le_of_mem _ _
            (List.mem_map_of_mem _ (List.mem_cons_self x xs)) u32MAX
        have h2 : dir_size o.direction x ≤ u32MAX := hwf x (List.mem_cons_self x xs)
        rw [hperp]
        omega
      · obtain ⟨img, himg, heq⟩ := List.mem_map.mp hm
        exact ⟨img, himg, by rw [hperp, heq]⟩
    · intro _ img hmem
      rw [hperp]
      exact foldl_min_le_of_mem _ _ (List.mem_map_of_mem _ hmem) u32MAX
    · intro h'
      cases h'
  case ToLargest =>
    have hperp : perpendicular_size (x :: xs) o =
        ((x :: xs).map (dir_size o.direction)).foldl max 0 := by
      rw [perpendicular_size_eq_foldl_map, hs]
    refine ⟨?_, ?_, ?_⟩
    · rcases foldl_max_eq_seed_or_mem ((x :: xs).map (dir_size o.direction)) 0 with
        he | hm
      · refine ⟨x, List.mem_cons_self x xs, ?_⟩
        have h1 : dir_size o.direction x ≤
            ((x :: xs).map (dir_size o.direction)).foldl max 0 :=
          mem_le_foldl_max _ _
            (List.mem_map_of_mem _ (List.mem_cons_self x xs)) 0
        rw [hperp]
        omega
      · obtain ⟨img, himg, heq⟩ := List.mem_map.mp hm
        exact ⟨img, himg, by rw [hperp, heq]⟩
    · intro h'
      cases h'
    · intro _ img hmem
      rw [hperp]
      exact mem_le_foldl_max _ _ (List.mem_map_of_mem _ hmem) 0

/-- C10 witness: two concrete in-range images under Horizontal and
ToSmallest. -/
theorem perpendicular_size_attained_witness :
    ([sampleImage 3 7, sampleImage 5 2] : List Image) ≠ [] ∧
    (∀ img ∈ ([sampleImage 3 7, sampleImage 5 2] : List Image),
      dir_size Direction.Horizontal img ≤ u32MAX) ∧
    ((∃ img ∈ ([sampleImage 3 7, sampleImage 5 2] : List Image),
        perpendicular_size [sampleImage 3 7, sampleImage 5 2]
            ⟨.Horizontal, .ToSmallest, .Nearest⟩ = dir_size Direction.Horizontal img) ∧
      (Sizing.ToSmallest = Sizing.ToSmallest →
        ∀ img ∈ ([sampleImage 3 7, sampleImage 5 2] : List Image),
          perpendicular_size [sampleImage 3 7, sampleImage 5 2]
              ⟨.Horizontal, .ToSmallest, .Nearest⟩ ≤ dir_size Direction.Horizontal img) ∧
      (Sizing.ToSmallest = Sizing.ToLargest →
        ∀ img ∈ ([sampleImage 3 7, sampleImage 5 2] : List Image),
          dir_size Direction.Horizontal img ≤
            perpendicular_size [sampleImage 3 7, sampleImage 5 2]
              ⟨.Horizontal, .ToSmallest, .Nearest⟩)) :=
  ⟨by simp, by decide,
   perpendicular_size_attained ⟨.Horizontal, .ToSmallest, .Nearest⟩
     [sampleImage 3 7, sampleImage 5 2] (by simp) (by decide)⟩

end FFPhotoJoin
